import Mathlib

/-!
# pls2fasta: subread derivation of `utils/PulseToFasta.cpp`

A shallow embedding of the per-read body of `main` in `utils/PulseToFasta.cpp`
(lines 141-324): the hole-number and empty-read filters, the resolution of the
high-quality window, masking, subread interval generation, the clip and filter
loop, and the best-subread output.

Conventions.
* `DNALength` is the 32 bit unsigned offset type of the library; offsets that the
  reader and the region table hand over are natural numbers. The conversions that
  `main` performs on `int` values are explicit (`toDNALength`, `toInt`).
* The classes `SMRTSequence`, `ReadInterval`, `RegionTable` and `RegionAnnotations`
  are declared outside this file of the repository; only the members that `main`
  touches are represented.
* The output stream is the list of sequences printed to it, in order. The textual
  layout (FASTA against FASTQ, line length) is the printer's business and is not
  represented.
-/

namespace PulseToFasta

/-! ## Data model -/

/-- A subread interval `[start, end)` of a read (`reads/ReadInterval.hpp`). -/
structure ReadInterval where
  start : Nat
  end_ : Nat
deriving DecidableEq, Repr

/-- The members of `SMRTSequence` that `main` reads or writes: the title, the
base array `seq`, the `length` field (kept apart from the array, as in the class),
the hole number of `zmwData`, and the subread coordinates. -/
structure SMRTSequence where
  title : String
  seq : List Char
  length : Nat
  holeNumber : Nat
  subreadStart : Nat
  subreadEnd : Nat
deriving DecidableEq, Repr

/-- A default-constructed sequence (`SMRTSequence subreadSequence;`). -/
def SMRTSequence.empty : SMRTSequence :=
  { title := "", seq := [], length := 0, holeNumber := 0, subreadStart := 0, subreadEnd := 0 }

/-- The high-quality region of a region-table entry: start, end and score. -/
structure HQRegion where
  start : Nat
  end_ : Nat
  score : Int
deriving DecidableEq, Repr

/-- The entry of one hole number in the region table. `HQRegion` is absent when
the read has no high-quality annotation. `SubreadIntervals` stands for the method
`RegionAnnotations::SubreadIntervals(wholeLength, byAdapter, byHQRegion)`, whose
body is outside this file: it is a parameter of the development. -/
structure RegionAnnotations where
  hqRegion : Option HQRegion
  SubreadIntervals : Nat → Bool → Bool → List ReadInterval

/-- The region table: at most one entry per hole number. -/
def RegionTable : Type := Nat → Option RegionAnnotations

/-- A default-constructed table (`RegionTable regionTable;`, line 31). -/
def RegionTable.empty : RegionTable := fun _ => none

/-- The command-line settings that the per-read body consults (lines 28-43). -/
structure Options where
  trimByRegion : Bool
  maskByRegion : Bool
  splitSubreads : Bool
  minSubreadLength : Int
  printCcs : Bool
  minReadScore : Int
  holeNumbers : List Nat
  printOnlyBest : Bool

/-! ## Machine integers -/

/-- Conversion of an `int` to `DNALength` (32 bit unsigned): reduction modulo `2^32`. -/
def toDNALength (x : Int) : Nat := (x % 4294967296).toNat

/-- Conversion of a 32 bit unsigned value to `int`: values from `2^31` on wrap to
the negative range. -/
def toInt (n : Nat) : Int :=
  if n % 4294967296 < 2147483648 then ((n % 4294967296 : Nat) : Int)
  else ((n % 4294967296 : Nat) : Int) - 4294967296

/-- Line 291: `int subreadWeightedScore = subreadSequence.length * hqRegionScore;`.
The product of a `DNALength` and an `int` is taken in 32 bit unsigned arithmetic and
the result is converted back to `int`. -/
def subreadWeightedScore (length : Nat) (hqRegionScore : Int) : Int :=
  toInt (length * toDNALength hqRegionScore % 4294967296)

/-! ## Resolution of the high-quality window -/

/-- Modelled from the spec: `GetReadTrimCoordinates` is declared in
`utils/RegionUtils.hpp`, outside this file. Section 4.2: it looks up the HQ region
of the read's hole number; when there is one it reports the stored start, end and
score, and otherwise it reports that nothing was found. A result `none` is the
return value `false`; nothing is said there about what is written to the score. -/
def GetReadTrimCoordinates (seq : SMRTSequence) (regionTable : RegionTable) : Option HQRegion :=
  match regionTable seq.holeNumber with
  | some annotations => annotations.hqRegion
  | none => none

/-- The values of `hqReadStart`, `hqReadEnd` and `hqRegionScore` after lines 175-181. -/
structure HQWindow where
  hqReadStart : Nat
  hqReadEnd : Nat
  hqRegionScore : Int
deriving DecidableEq, Repr

/-- Lines 175-181. `hqRegionScore` is declared without an initial value and `main`
never assigns it: after a successful lookup it holds the stored score, also when
the window is reset because neither trimming nor masking was asked for; after a
failed lookup it holds `uninitialised`, whatever the variable contains when no
successful lookup has written to it. -/
def resolveHQ (o : Options) (seq : SMRTSequence) (regionTable : RegionTable)
    (uninitialised : Int) : HQWindow :=
  match GetReadTrimCoordinates seq regionTable with
  | some hq =>
    if o.trimByRegion == false && o.maskByRegion == false then
      { hqReadStart := 0, hqReadEnd := seq.length, hqRegionScore := hq.score }
    else
      { hqReadStart := hq.start, hqReadEnd := hq.end_, hqRegionScore := hq.score }
  | none =>
    { hqReadStart := 0, hqReadEnd := seq.length, hqRegionScore := uninitialised }

/-! ## Masking -/

/-- The call `std::fill(&a[first], &a[last], value)`: positions `first <= i < last`
are overwritten. The call is defined for `first <= last <= size`; outside that range
this function leaves the other positions alone. -/
def fill (a : List Char) (first last : Nat) (value : Char) : List Char :=
  a.mapIdx fun i c => if first ≤ i ∧ i < last then value else c

/-- Lines 186-193: the bases outside the window are overwritten with `N`. -/
def maskSeq (o : Options) (seq : SMRTSequence) (hqReadStart hqReadEnd : Nat) : SMRTSequence :=
  if o.maskByRegion then
    let seq1 := if hqReadStart > 0 then { seq with seq := fill seq.seq 0 hqReadStart 'N' } else seq
    if hqReadEnd != seq1.length then
      { seq1 with seq := fill seq1.seq hqReadEnd seq1.length 'N' }
    else seq1
  else seq

/-! ## Subread intervals -/

/-- Lines 200-215: the whole read when splitting is off; otherwise the intervals of
the read's region-table entry, and no interval at all when the table has no entry
(`HasHoleNumber` followed by `operator[]` is the case split on the lookup). -/
def subreadIntervals (o : Options) (seq : SMRTSequence) (regionTable : RegionTable) :
    List ReadInterval :=
  if o.splitSubreads == false then
    [{ start := 0, end_ := seq.length }]
  else
    match regionTable seq.holeNumber with
    | some annotations => annotations.SubreadIntervals seq.length false true
    | none => []

/-! ## The subread loop -/

/-- Member `ReferenceSubstring(rhs, pos, substrLength)`: the sequence becomes a view
of `substrLength` bases of `rhs` from `pos` on. -/
def ReferenceSubstring (sub rhs : SMRTSequence) (pos substrLength : Nat) : SMRTSequence :=
  { sub with seq := (rhs.seq.drop pos).take substrLength, length := substrLength }

/-- Lines 255-264 and 275: the title of a subread. The branch of lines 269-273 is
guarded by `addSimulatedData`, a local that is initialised to `false` on line 36
and that no option writes, so it never runs and is left out. -/
def subreadTitle (o : Options) (seq : SMRTSequence) (subreadStart subreadEnd : Nat) : String :=
  if o.splitSubreads then
    seq.title ++ "/" ++ toString subreadStart ++ "_" ++ toString subreadEnd
  else seq.title

/-- The variables that the loop of lines 223-299 updates: what has been printed so
far, `bestSubread` and `bestSubreadScore`. -/
structure LoopState where
  out : List SMRTSequence
  bestSubread : SMRTSequence
  bestSubreadScore : Int
deriving DecidableEq, Repr

/-- Lines 219-222: the state on entry to the loop. -/
def LoopState.init : LoopState :=
  { out := [], bestSubread := SMRTSequence.empty, bestSubreadScore := -1 }

/-- One pass through the body of the loop, lines 224-298. -/
def loopBody (o : Options) (seq : SMRTSequence) (hq : HQWindow) (st : LoopState)
    (intv : ReadInterval) : LoopState :=
  let sub0 : SMRTSequence :=
    { SMRTSequence.empty with subreadStart := intv.start, subreadEnd := intv.end_ }
  let sub1 : SMRTSequence :=
    if o.trimByRegion == true then
      { sub0 with subreadStart := max intv.start hq.hqReadStart,
                  subreadEnd := min intv.end_ hq.hqReadEnd }
    else sub0
  if sub1.subreadStart ≥ sub1.subreadEnd ∨
      sub1.subreadEnd - sub1.subreadStart ≤ toDNALength o.minSubreadLength then
    st
  else if hq.hqRegionScore < o.minReadScore then
    st
  else
    let sub2 := ReferenceSubstring sub1 seq sub1.subreadStart (sub1.subreadEnd - sub1.subreadStart)
    let sub3 := { sub2 with title := subreadTitle o seq sub2.subreadStart sub2.subreadEnd }
    if o.printOnlyBest == false then
      if sub3.length > 0 then { st with out := st.out ++ [sub3] } else st
    else
      let weighted := subreadWeightedScore sub3.length hq.hqRegionScore
      if weighted > st.bestSubreadScore then
        { st with bestSubread := sub3, bestSubreadScore := weighted }
      else st

/-- Lines 219-299: the loop over the subread intervals. -/
def subreadLoop (o : Options) (seq : SMRTSequence) (hq : HQWindow)
    (intervals : List ReadInterval) : LoopState :=
  intervals.foldl (loopBody o seq hq) LoopState.init

/-- Lines 301-322: what is printed after the loop. -/
def finish (o : Options) (ccsSeq : SMRTSequence) (st : LoopState) : List SMRTSequence :=
  if o.printOnlyBest then
    if ccsSeq.length > 0 then st.out ++ [ccsSeq]
    else if st.bestSubreadScore ≥ 0 then st.out ++ [st.bestSubread]
    else st.out
  else st.out

/-- Lines 183-322 for a resolved window and a given list of intervals: masking, the
loop, and the final output. -/
def processResolved (o : Options) (seq ccsSeq : SMRTSequence) (hq : HQWindow)
    (intervals : List ReadInterval) : List SMRTSequence :=
  finish o ccsSeq (subreadLoop o (maskSeq o seq hq.hqReadStart hq.hqReadEnd) hq intervals)

/-- The call `std::binary_search` over the sorted `holeNumbers` (line 96): membership. -/
def binary_search (holeNumbers : List Nat) (holeNumber : Nat) : Bool :=
  holeNumbers.contains holeNumber

/-- The body of the `while` loop, lines 141-324, for one read: the sequences printed
for it. `ccsSeq` is what `ccsReader.GetNext` delivered (consulted only with
`printOnlyBest`), `regionTable` is the table in memory and `uninitialised` the
value that `hqRegionScore` holds when nothing assigns it. -/
def processRead (o : Options) (regionTable : RegionTable) (seq ccsSeq : SMRTSequence)
    (uninitialised : Int) : List SMRTSequence :=
  if o.holeNumbers.length != 0 && binary_search o.holeNumbers seq.holeNumber == false then []
  else if seq.length == 0 then []
  else if o.printCcs == true then [seq]
  else
    let hq := resolveHQ o seq regionTable uninitialised
    let masked := maskSeq o seq hq.hqReadStart hq.hqReadEnd
    finish o ccsSeq (subreadLoop o masked hq (subreadIntervals o masked regionTable))

/-- Lines 280-298: what the loop does with a subread that passed the filters. -/
def emitOrRank (o : Options) (hq : HQWindow) (st : LoopState) (sub : SMRTSequence) : LoopState :=
  if o.printOnlyBest == false then
    if sub.length > 0 then { st with out := st.out ++ [sub] } else st
  else
    if subreadWeightedScore sub.length hq.hqRegionScore > st.bestSubreadScore then
      { st with bestSubread := sub,
                bestSubreadScore := subreadWeightedScore sub.length hq.hqRegionScore }
    else st

/-- Lines 101-104: the region file is read only when an option needs it; otherwise
the table stays as it was constructed. -/
def loadRegionTable (o : Options) (regionFile : RegionTable) : RegionTable :=
  if o.trimByRegion || o.maskByRegion || o.splitSubreads then regionFile else RegionTable.empty

/-! ## Notions used to state the properties -/

/-- The `(start, end)` range of a printed subread. -/
def range (r : SMRTSequence) : Nat × Nat := (r.subreadStart, r.subreadEnd)

/-- Clipping of an interval as in lines 226-236. -/
def clip (o : Options) (hq : HQWindow) (intv : ReadInterval) : Nat × Nat :=
  if o.trimByRegion then (max intv.start hq.hqReadStart, min intv.end_ hq.hqReadEnd)
  else (intv.start, intv.end_)

/-- The subread built on lines 253-275 for a clipped range. -/
def mkSubread (o : Options) (seq : SMRTSequence) (r : Nat × Nat) : SMRTSequence :=
  { title := subreadTitle o seq r.1 r.2,
    seq := (seq.seq.drop r.1).take (r.2 - r.1),
    length := r.2 - r.1,
    holeNumber := 0,
    subreadStart := r.1,
    subreadEnd := r.2 }

/-- The length filter on a clipped range as the specification words it: the range
is non-empty and strictly longer than the minimum. -/
def passesLength (minSubreadLength : Int) (r : Nat × Nat) : Bool :=
  decide (r.1 < r.2) && decide ((r.2 : Int) - (r.1 : Int) > minSubreadLength)

/-- The test of lines 238-248 on an interval: its clipped range is non-empty and
longer than the minimum, and the read's score is not below the minimum score. -/
def accepts (o : Options) (hq : HQWindow) (intv : ReadInterval) : Bool :=
  decide ((clip o hq intv).1 < (clip o hq intv).2) &&
  decide ((clip o hq intv).2 - (clip o hq intv).1 > toDNALength o.minSubreadLength) &&
  !decide (hq.hqRegionScore < o.minReadScore)

/-- The surviving subreads of a read, in interval order: the subreads built from the
clipped candidates that pass the filters. -/
def survivors (o : Options) (seq : SMRTSequence) (hq : HQWindow)
    (intervals : List ReadInterval) : List SMRTSequence :=
  (intervals.filter (accepts o hq)).map fun intv => mkSubread o seq (clip o hq intv)

/-- The weighted score of a subread as the specification words it: length times
HQ score, as integers. -/
def weightedScore (hq : HQWindow) (r : SMRTSequence) : Int :=
  (r.length : Int) * hq.hqRegionScore

/-- The weighted score that line 291 computes for a subread. -/
def machineScore (hq : HQWindow) (r : SMRTSequence) : Int :=
  subreadWeightedScore r.length hq.hqRegionScore

/-- A sequence with its bases dropped: what is left is the title, the length field,
the hole number and the subread coordinates. -/
def withoutBases (r : SMRTSequence) : SMRTSequence := { r with seq := [] }

/-- A loop state with the bases of every sequence dropped. -/
def LoopState.withoutBases (st : LoopState) : LoopState :=
  { out := st.out.map PulseToFasta.withoutBases,
    bestSubread := PulseToFasta.withoutBases st.bestSubread,
    bestSubreadScore := st.bestSubreadScore }

/-! ## Concrete reads and tables -/

/-- A read of `n` bases `A` in hole 7. -/
def readOfLength (n : Nat) : SMRTSequence :=
  { title := "m/7", seq := List.replicate n 'A', length := n, holeNumber := 7,
    subreadStart := 0, subreadEnd := 0 }

/-- A region table whose only entry, for hole 7, has the given HQ region and hands
out the given subread intervals. -/
def tableOf (hq : Option HQRegion) (intervals : List ReadInterval) : RegionTable :=
  fun holeNumber =>
    if holeNumber = 7 then some { hqRegion := hq, SubreadIntervals := fun _ _ _ => intervals }
    else none

/-- Scenario A of the specification: trimming and splitting on, minimum subread
length 5, minimum read score 0. -/
def scenarioA : Options :=
  { trimByRegion := true, maskByRegion := false, splitSubreads := true, minSubreadLength := 5,
    printCcs := false, minReadScore := 0, holeNumbers := [], printOnlyBest := false }

/-- The region table of scenario A: HQ region (10, 90, 800) and the intervals cut at
30 and 60. -/
def tableA : RegionTable :=
  tableOf (some { start := 10, end_ := 90, score := 800 })
    [{ start := 0, end_ := 30 }, { start := 30, end_ := 60 }, { start := 60, end_ := 100 }]

/-- Splitting on, neither trimming nor masking, minimum read score 500. -/
def splitOnly : Options :=
  { trimByRegion := false, maskByRegion := false, splitSubreads := true, minSubreadLength := 5,
    printCcs := false, minReadScore := 500, holeNumbers := [], printOnlyBest := false }

/-- The option `-best` alone: splitting on, no trimming, no masking, no minimum
length and no minimum score. -/
def bestOnly : Options :=
  { trimByRegion := false, maskByRegion := false, splitSubreads := true, minSubreadLength := 0,
    printCcs := false, minReadScore := 0, holeNumbers := [], printOnlyBest := true }

/-- A region table whose entry has an empty HQ region with score 0 and the subread
intervals (0, 20) and (20, 50). -/
def tableScoreZero : RegionTable :=
  tableOf (some { start := 0, end_ := 0, score := 0 })
    [{ start := 0, end_ := 20 }, { start := 20, end_ := 50 }]

/-- No splitting, a minimum subread length of 10 and nothing else. -/
def wholeReadOnly : Options :=
  { trimByRegion := false, maskByRegion := false, splitSubreads := false,
    minSubreadLength := 10, printCcs := false, minReadScore := 0, holeNumbers := [],
    printOnlyBest := false }

/-! ## The loop in terms of the surviving subreads -/

theorem accepts_iff (o : Options) (hq : HQWindow) (intv : ReadInterval) :
    accepts o hq intv = true ↔
      ¬ ((clip o hq intv).1 ≥ (clip o hq intv).2 ∨
          (clip o hq intv).2 - (clip o hq intv).1 ≤ toDNALength o.minSubreadLength) ∧
        ¬ hq.hqRegionScore < o.minReadScore := by
  unfold accepts
  simp only [Bool.and_eq_true, decide_eq_true_eq, Bool.not_eq_true', decide_eq_false_iff_not]
  constructor
  · rintro ⟨⟨h1, h2⟩, h3⟩
    exact ⟨by omega, h3⟩
  · rintro ⟨h1, h3⟩
    exact ⟨⟨by omega, by omega⟩, h3⟩

theorem loopBody_clip (o : Options) (seq : SMRTSequence) (hq : HQWindow) (st : LoopState)
    (intv : ReadInterval) :
    loopBody o seq hq st intv =
      if (clip o hq intv).1 ≥ (clip o hq intv).2 ∨
          (clip o hq intv).2 - (clip o hq intv).1 ≤ toDNALength o.minSubreadLength then st
      else if hq.hqRegionScore < o.minReadScore then st
      else emitOrRank o hq st (mkSubread o seq (clip o hq intv)) := by
  unfold loopBody clip emitOrRank mkSubread ReferenceSubstring SMRTSequence.empty
  cases o.trimByRegion <;> rfl

theorem loopBody_eq (o : Options) (seq : SMRTSequence) (hq : HQWindow) (st : LoopState)
    (intv : ReadInterval) :
    loopBody o seq hq st intv =
      if accepts o hq intv then emitOrRank o hq st (mkSubread o seq (clip o hq intv)) else st := by
  rw [loopBody_clip]
  by_cases hacc : accepts o hq intv = true
  · obtain ⟨h1, h2⟩ := (accepts_iff o hq intv).1 hacc
    rw [if_pos hacc, if_neg h1, if_neg h2]
  · rw [if_neg hacc]
    have hn := mt (accepts_iff o hq intv).2 hacc
    by_cases h1 : (clip o hq intv).1 ≥ (clip o hq intv).2 ∨
        (clip o hq intv).2 - (clip o hq intv).1 ≤ toDNALength o.minSubreadLength
    · rw [if_pos h1]
    · rw [if_neg h1]
      by_cases h2 : hq.hqRegionScore < o.minReadScore
      · rw [if_pos h2]
      · exact absurd ⟨h1, h2⟩ hn

theorem foldl_loopBody (o : Options) (seq : SMRTSequence) (hq : HQWindow)
    (intervals : List ReadInterval) (st : LoopState) :
    intervals.foldl (loopBody o seq hq) st =
      (survivors o seq hq intervals).foldl (emitOrRank o hq) st := by
  induction intervals generalizing st with
  | nil => rfl
  | cons intv rest ih =>
    rw [List.foldl_cons, loopBody_eq, ih]
    cases h : accepts o hq intv
    · simp [survivors, List.filter_cons, h]
    · simp [survivors, List.filter_cons, h]

/-! ## Machine arithmetic without overflow -/

theorem toDNALength_of_nonneg (x : Int) (h0 : 0 ≤ x) (h1 : x < 4294967296) :
    toDNALength x = x.toNat := by
  unfold toDNALength
  congr 1
  omega

theorem toInt_of_lt (n : Nat) (h : n < 2147483648) : toInt n = (n : Int) := by
  unfold toInt
  have h1 : n % 4294967296 = n := Nat.mod_eq_of_lt (by omega)
  rw [h1, if_pos h]

theorem subreadWeightedScore_eq (length : Nat) (score : Int) (h0 : 0 ≤ score)
    (h1 : score ≤ 1000) (h2 : (length : Int) * score < 2147483648) :
    subreadWeightedScore length score = (length : Int) * score := by
  unfold subreadWeightedScore
  rw [toDNALength_of_nonneg score h0 (by omega)]
  have hcast : ((length * score.toNat : Nat) : Int) = (length : Int) * score := by
    rw [Nat.cast_mul, Int.toNat_of_nonneg h0]
  have hlt : length * score.toNat < 2147483648 := by
    have : ((length * score.toNat : Nat) : Int) < 2147483648 := by rw [hcast]; exact h2
    exact_mod_cast this
  rw [Nat.mod_eq_of_lt (by omega), toInt_of_lt _ hlt, hcast]

/-! ## The surviving subreads -/

theorem mem_survivors (o : Options) (seq : SMRTSequence) (hq : HQWindow)
    (intervals : List ReadInterval) (r : SMRTSequence) :
    r ∈ survivors o seq hq intervals ↔
      ∃ intv ∈ intervals, accepts o hq intv = true ∧ r = mkSubread o seq (clip o hq intv) := by
  unfold survivors
  simp only [List.mem_map, List.mem_filter]
  constructor
  · rintro ⟨intv, ⟨hmem, hacc⟩, rfl⟩
    exact ⟨intv, hmem, hacc, rfl⟩
  · rintro ⟨intv, hmem, hacc, rfl⟩
    exact ⟨intv, ⟨hmem, hacc⟩, rfl⟩

theorem survivors_shape (o : Options) (seq : SMRTSequence) (hq : HQWindow)
    (intervals : List ReadInterval) (r : SMRTSequence) (hr : r ∈ survivors o seq hq intervals) :
    r.subreadStart < r.subreadEnd ∧ r.length = r.subreadEnd - r.subreadStart ∧ 0 < r.length := by
  obtain ⟨intv, _, hacc, rfl⟩ := (mem_survivors o seq hq intervals r).1 hr
  obtain ⟨h1, _⟩ := (accepts_iff o hq intv).1 hacc
  simp only [mkSubread]
  generalize clip o hq intv = c at h1
  obtain ⟨s, e⟩ := c
  simp only [ge_iff_le, not_or, not_le] at h1
  refine ⟨h1.1, trivial, ?_⟩
  show 0 < e - s
  omega

/-! ## The loop in normal mode and in best-only mode -/

theorem foldl_emit (o : Options) (hq : HQWindow) (hbest : o.printOnlyBest = false)
    (subs : List SMRTSequence) (hpos : ∀ r ∈ subs, 0 < r.length) (st : LoopState) :
    subs.foldl (emitOrRank o hq) st = { st with out := st.out ++ subs } := by
  induction subs generalizing st with
  | nil => simp
  | cons r rest ih =>
    have hr : 0 < r.length := hpos r (List.mem_cons_self r rest)
    rw [List.foldl_cons, ih (fun x hx => hpos x (List.mem_cons_of_mem r hx))]
    simp [emitOrRank, hbest, hr]

theorem foldl_rank (o : Options) (hq : HQWindow) (hbest : o.printOnlyBest = true)
    (subs : List SMRTSequence) (st : LoopState)
    (hinv : st.bestSubreadScore = machineScore hq st.bestSubread) :
    (subs.foldl (emitOrRank o hq) st).out = st.out ∧
    (subs.foldl (emitOrRank o hq) st).bestSubreadScore =
      machineScore hq (subs.foldl (emitOrRank o hq) st).bestSubread ∧
    ∃ pre post, st.bestSubread :: subs = pre ++ (subs.foldl (emitOrRank o hq) st).bestSubread :: post ∧
      (∀ x ∈ pre, machineScore hq x < machineScore hq (subs.foldl (emitOrRank o hq) st).bestSubread) ∧
      (∀ x ∈ post, machineScore hq x ≤ machineScore hq (subs.foldl (emitOrRank o hq) st).bestSubread) := by
  induction subs generalizing st with
  | nil =>
    refine ⟨rfl, hinv, [], [], rfl, ?_, ?_⟩ <;> simp
  | cons r rest ih =>
    rw [List.foldl_cons]
    by_cases hgt : machineScore hq r > st.bestSubreadScore
    · have hstep : emitOrRank o hq st r =
          { st with bestSubread := r, bestSubreadScore := machineScore hq r } := by
        simp only [machineScore] at hgt
        simp [emitOrRank, hbest, machineScore, hgt]
      rw [hstep]
      obtain ⟨hout, hsc, pre, post, hsplit, hpre, hpost⟩ :=
        ih { st with bestSubread := r, bestSubreadScore := machineScore hq r } rfl
      refine ⟨hout, hsc, st.bestSubread :: pre, post, ?_, ?_, hpost⟩
      · simp only [List.cons_append]
        exact congrArg _ hsplit
      · have hle : machineScore hq r ≤ machineScore hq
            (rest.foldl (emitOrRank o hq)
              { st with bestSubread := r, bestSubreadScore := machineScore hq r }).bestSubread := by
          have hmem : r ∈ pre ++ (rest.foldl (emitOrRank o hq)
              { st with bestSubread := r, bestSubreadScore := machineScore hq r }).bestSubread :: post := by
            rw [← hsplit]; exact List.mem_cons_self _ _
          rcases List.mem_append.1 hmem with h | h
          · exact le_of_lt (hpre r h)
          · rcases List.mem_cons.1 h with h | h
            · rw [← h]
            · exact hpost r h
        intro x hx
        rcases List.mem_cons.1 hx with h | h
        · rw [h, ← hinv]; omega
        · exact hpre x h
    · have hstep : emitOrRank o hq st r = st := by
        simp only [machineScore] at hgt
        simp [emitOrRank, hbest, hgt]
      rw [hstep]
      obtain ⟨hout, hsc, pre, post, hsplit, hpre, hpost⟩ := ih st hinv
      refine ⟨hout, hsc, ?_⟩
      cases pre with
      | nil =>
        simp only [List.nil_append, List.cons.injEq] at hsplit
        refine ⟨[], r :: post, ?_, by simp, ?_⟩
        · simp only [List.nil_append]
          rw [← hsplit.2, ← hsplit.1]
        · intro x hx
          rcases List.mem_cons.1 hx with h | h
          · rw [h, ← hsplit.1, ← hinv]; omega
          · exact hpost x h
      | cons p pre2 =>
        simp only [List.cons_append, List.cons.injEq] at hsplit
        refine ⟨st.bestSubread :: r :: pre2, post, ?_, ?_, hpost⟩
        · simp only [List.cons_append]
          exact congrArg (fun l => st.bestSubread :: r :: l) hsplit.2
        · have hp : machineScore hq st.bestSubread < machineScore hq
              (rest.foldl (emitOrRank o hq) st).bestSubread := by
            rw [hsplit.1]; exact hpre p (List.mem_cons_self _ _)
          intro x hx
          rcases List.mem_cons.1 hx with h | h
          · rw [h]; exact hp
          · rcases List.mem_cons.1 h with h | h
            · rw [h]; rw [← hinv] at hp; omega
            · exact hpre x (List.mem_cons_of_mem _ h)

theorem foldl_rank_out (o : Options) (hq : HQWindow) (hbest : o.printOnlyBest = true)
    (subs : List SMRTSequence) (st : LoopState) :
    (subs.foldl (emitOrRank o hq) st).out = st.out := by
  induction subs generalizing st with
  | nil => rfl
  | cons r rest ih =>
    rw [List.foldl_cons, ih]
    unfold emitOrRank
    simp only [hbest]
    split_ifs <;> first | rfl | simp_all

theorem foldl_rank_mem (o : Options) (hq : HQWindow) (hbest : o.printOnlyBest = true)
    (subs : List SMRTSequence) (st : LoopState) :
    subs.foldl (emitOrRank o hq) st = st ∨
      (subs.foldl (emitOrRank o hq) st).bestSubread ∈ subs := by
  induction subs generalizing st with
  | nil => exact Or.inl rfl
  | cons r rest ih =>
    rw [List.foldl_cons]
    by_cases hgt : subreadWeightedScore r.length hq.hqRegionScore > st.bestSubreadScore
    · have hstep : emitOrRank o hq st r =
          { st with bestSubread := r,
                    bestSubreadScore := subreadWeightedScore r.length hq.hqRegionScore } := by
        simp [emitOrRank, hbest, hgt]
      rw [hstep]
      rcases ih { st with bestSubread := r,
                          bestSubreadScore := subreadWeightedScore r.length hq.hqRegionScore } with h | h
      · right
        rw [h]
        exact List.mem_cons_self _ _
      · exact Or.inr (List.mem_cons_of_mem _ h)
    · have hstep : emitOrRank o hq st r = st := by
        simp [emitOrRank, hbest, hgt]
      rw [hstep]
      rcases ih st with h | h
      · exact Or.inl h
      · exact Or.inr (List.mem_cons_of_mem _ h)

theorem subreadLoop_normal (o : Options) (seq : SMRTSequence) (hq : HQWindow)
    (intervals : List ReadInterval) (hbest : o.printOnlyBest = false) :
    subreadLoop o seq hq intervals =
      { LoopState.init with out := survivors o seq hq intervals } := by
  unfold subreadLoop
  rw [foldl_loopBody, foldl_emit o hq hbest _
    (fun r hr => (survivors_shape o seq hq intervals r hr).2.2)]
  simp [LoopState.init]

theorem finish_normal (o : Options) (ccsSeq : SMRTSequence) (st : LoopState)
    (hbest : o.printOnlyBest = false) : finish o ccsSeq st = st.out := by
  simp [finish, hbest]

theorem processResolved_normal (o : Options) (seq ccsSeq : SMRTSequence) (hq : HQWindow)
    (intervals : List ReadInterval) (hbest : o.printOnlyBest = false) :
    processResolved o seq ccsSeq hq intervals =
      survivors o (maskSeq o seq hq.hqReadStart hq.hqReadEnd) hq intervals := by
  unfold processResolved
  rw [finish_normal o ccsSeq _ hbest, subreadLoop_normal o _ hq intervals hbest]

theorem survivors_map_range (o : Options) (seq : SMRTSequence) (hq : HQWindow)
    (intervals : List ReadInterval) :
    (survivors o seq hq intervals).map range =
      (intervals.filter (accepts o hq)).map (clip o hq) := by
  unfold survivors
  rw [List.map_map]
  rfl

theorem accepts_eq_passesLength (o : Options) (hq : HQWindow) (intv : ReadInterval)
    (hscore : o.minReadScore ≤ hq.hqRegionScore) (hmin : 0 ≤ o.minSubreadLength)
    (hint : o.minSubreadLength < 2147483648) :
    accepts o hq intv = passesLength o.minSubreadLength (clip o hq intv) := by
  unfold accepts passesLength
  rw [toDNALength_of_nonneg _ hmin (by omega)]
  generalize clip o hq intv = c
  obtain ⟨s, e⟩ := c
  have hs : decide (hq.hqRegionScore < o.minReadScore) = false := by
    rw [decide_eq_false_iff_not]; omega
  rw [hs]
  simp only [Bool.not_false, Bool.and_true]
  by_cases h1 : s < e
  · have h2 : (e - s > o.minSubreadLength.toNat) ↔ ((e : Int) - (s : Int) > o.minSubreadLength) := by
      omega
    simp only [h1, decide_True, Bool.true_and, decide_eq_decide]
    exact h2
  · simp [h1]

theorem survivors_ranges_spec (o : Options) (seq : SMRTSequence) (hq : HQWindow)
    (intervals : List ReadInterval)
    (hscore : o.minReadScore ≤ hq.hqRegionScore) (hmin : 0 ≤ o.minSubreadLength)
    (hint : o.minSubreadLength < 2147483648) :
    (survivors o seq hq intervals).map range =
      (intervals.map (clip o hq)).filter (passesLength o.minSubreadLength) := by
  rw [survivors_map_range, List.filter_map]
  congr 1
  apply List.filter_congr
  intro intv _
  exact accepts_eq_passesLength o hq intv hscore hmin hint

/-! ## Masking keeps everything but the bases -/

theorem maskSeq_length (o : Options) (seq : SMRTSequence) (a b : Nat) :
    (maskSeq o seq a b).length = seq.length := by
  unfold maskSeq
  dsimp only
  split_ifs <;> rfl

theorem maskSeq_holeNumber (o : Options) (seq : SMRTSequence) (a b : Nat) :
    (maskSeq o seq a b).holeNumber = seq.holeNumber := by
  unfold maskSeq
  dsimp only
  split_ifs <;> rfl

theorem maskSeq_title (o : Options) (seq : SMRTSequence) (a b : Nat) :
    (maskSeq o seq a b).title = seq.title := by
  unfold maskSeq
  dsimp only
  split_ifs <;> rfl

theorem subreadIntervals_maskSeq (o : Options) (seq : SMRTSequence) (a b : Nat)
    (regionTable : RegionTable) :
    subreadIntervals o (maskSeq o seq a b) regionTable = subreadIntervals o seq regionTable := by
  unfold subreadIntervals
  rw [maskSeq_length, maskSeq_holeNumber]

/-! ## The per-read body in terms of its stages -/

theorem processRead_eq (o : Options) (regionTable : RegionTable) (seq ccsSeq : SMRTSequence)
    (uninitialised : Int)
    (hhole : o.holeNumbers = [] ∨ seq.holeNumber ∈ o.holeNumbers)
    (hlen : seq.length ≠ 0) (hccs : o.printCcs = false) :
    processRead o regionTable seq ccsSeq uninitialised =
      processResolved o seq ccsSeq (resolveHQ o seq regionTable uninitialised)
        (subreadIntervals o seq regionTable) := by
  have h1 : (o.holeNumbers.length != 0 && binary_search o.holeNumbers seq.holeNumber == false)
      = false := by
    rcases hhole with h | h
    · simp [h]
    · simp [binary_search, h]
  unfold processRead processResolved
  rw [h1]
  simp only [Bool.false_eq_true, if_false, hccs, beq_iff_eq, hlen, subreadIntervals_maskSeq]

theorem processRead_nil_or (o : Options) (regionTable : RegionTable) (seq ccsSeq : SMRTSequence)
    (uninitialised : Int) (hccs : o.printCcs = false) :
    processRead o regionTable seq ccsSeq uninitialised = [] ∨
    processRead o regionTable seq ccsSeq uninitialised =
      processResolved o seq ccsSeq (resolveHQ o seq regionTable uninitialised)
        (subreadIntervals o seq regionTable) := by
  by_cases hhole : o.holeNumbers = [] ∨ seq.holeNumber ∈ o.holeNumbers
  · by_cases hlen : seq.length = 0
    · left
      unfold processRead
      simp [hlen]
    · exact Or.inr (processRead_eq o regionTable seq ccsSeq uninitialised hhole hlen hccs)
  · left
    have h1 : (o.holeNumbers.length != 0 && binary_search o.holeNumbers seq.holeNumber == false)
        = true := by
      rw [not_or] at hhole
      simp [binary_search, hhole.1, hhole.2]
    unfold processRead
    rw [h1]
    rfl

theorem subreadLoop_best_out (o : Options) (seq : SMRTSequence) (hq : HQWindow)
    (intervals : List ReadInterval) (hbest : o.printOnlyBest = true) :
    (subreadLoop o seq hq intervals).out = [] := by
  unfold subreadLoop
  rw [foldl_loopBody, foldl_rank_out o hq hbest]
  rfl

theorem mem_processResolved (o : Options) (seq ccsSeq : SMRTSequence) (hq : HQWindow)
    (intervals : List ReadInterval) (hmode : o.printOnlyBest = false ∨ ccsSeq.length = 0)
    (r : SMRTSequence) (hr : r ∈ processResolved o seq ccsSeq hq intervals) :
    r ∈ survivors o (maskSeq o seq hq.hqReadStart hq.hqReadEnd) hq intervals := by
  cases hbest : o.printOnlyBest
  · rwa [processResolved_normal o seq ccsSeq hq intervals hbest] at hr
  · have hccs : ccsSeq.length = 0 := by
      rcases hmode with h | h
      · rw [hbest] at h; exact absurd h (by decide)
      · exact h
    unfold processResolved finish at hr
    rw [subreadLoop_best_out o _ hq intervals hbest] at hr
    simp only [hbest, if_true, hccs, gt_iff_lt, lt_self_iff_false, if_false, List.nil_append] at hr
    split_ifs at hr with hsc
    · rw [List.mem_singleton] at hr
      have hmem := foldl_rank_mem o hq hbest
        (survivors o (maskSeq o seq hq.hqReadStart hq.hqReadEnd) hq intervals) LoopState.init
      rw [← foldl_loopBody] at hmem
      rcases hmem with h | h
      · exfalso
        have h2 : (subreadLoop o (maskSeq o seq hq.hqReadStart hq.hqReadEnd) hq
            intervals).bestSubreadScore = -1 := by
          unfold subreadLoop; rw [h]; rfl
        omega
      · rw [hr]; exact h
    · exact absurd hr (List.not_mem_nil r)

theorem machineScore_eq_weightedScore (hq : HQWindow) (r : SMRTSequence)
    (h0 : 0 ≤ hq.hqRegionScore) (h1 : hq.hqRegionScore ≤ 1000)
    (h2 : weightedScore hq r < 2147483648) : machineScore hq r = weightedScore hq r :=
  subreadWeightedScore_eq r.length hq.hqRegionScore h0 h1 h2

theorem weightedScore_nonneg (hq : HQWindow) (r : SMRTSequence) (h0 : 0 ≤ hq.hqRegionScore) :
    0 ≤ weightedScore hq r :=
  Int.mul_nonneg (Int.ofNat_nonneg _) h0

theorem loopBody_minReadScore (o : Options) (m : Int) (seq : SMRTSequence) (hq : HQWindow)
    (h1 : o.minReadScore ≤ hq.hqRegionScore) (h2 : m ≤ hq.hqRegionScore) :
    loopBody { o with minReadScore := m } seq hq = loopBody o seq hq := by
  funext st intv
  rw [loopBody_clip, loopBody_clip]
  have e1 : ¬ hq.hqRegionScore < o.minReadScore := by omega
  have e2 : ¬ hq.hqRegionScore < ({ o with minReadScore := m } : Options).minReadScore := by
    show ¬ hq.hqRegionScore < m
    omega
  rw [if_neg e1, if_neg e2]
  rfl

theorem survivors_nil_of_low_score (o : Options) (seq : SMRTSequence) (hq : HQWindow)
    (intervals : List ReadInterval) (hlow : hq.hqRegionScore < o.minReadScore) :
    survivors o seq hq intervals = [] := by
  unfold survivors
  rw [List.map_eq_nil_iff, List.filter_eq_nil_iff]
  intro intv _ hacc
  exact ((accepts_iff o hq intv).1 hacc).2 hlow

theorem subreadLoop_of_survivors_nil (o : Options) (seq : SMRTSequence) (hq : HQWindow)
    (intervals : List ReadInterval) (hnil : survivors o seq hq intervals = []) :
    subreadLoop o seq hq intervals = LoopState.init := by
  unfold subreadLoop
  rw [foldl_loopBody, hnil]
  rfl

theorem processResolved_of_survivors_nil (o : Options) (seq ccsSeq : SMRTSequence)
    (hq : HQWindow) (intervals : List ReadInterval)
    (hnil : survivors o (maskSeq o seq hq.hqReadStart hq.hqReadEnd) hq intervals = []) :
    processResolved o seq ccsSeq hq intervals =
      if o.printOnlyBest = true ∧ 0 < ccsSeq.length then [ccsSeq] else [] := by
  unfold processResolved
  rw [subreadLoop_of_survivors_nil o _ _ _ hnil]
  cases hbest : o.printOnlyBest
  · simp [finish, hbest, LoopState.init]
  · by_cases hc : 0 < ccsSeq.length
    · simp [finish, hbest, LoopState.init, hc]
    · simp [finish, hbest, LoopState.init, hc]

theorem resolveHQ_of_none (o : Options) (seq : SMRTSequence) (regionTable : RegionTable)
    (uninitialised : Int) (hnone : GetReadTrimCoordinates seq regionTable = none) :
    resolveHQ o seq regionTable uninitialised =
      { hqReadStart := 0, hqReadEnd := seq.length, hqRegionScore := uninitialised } := by
  unfold resolveHQ
  rw [hnone]

theorem resolveHQ_of_some (o : Options) (seq : SMRTSequence) (regionTable : RegionTable)
    (uninitialised : Int) (stored : HQRegion)
    (hsome : GetReadTrimCoordinates seq regionTable = some stored) :
    resolveHQ o seq regionTable uninitialised =
      if o.trimByRegion == false && o.maskByRegion == false then
        { hqReadStart := 0, hqReadEnd := seq.length, hqRegionScore := stored.score }
      else
        { hqReadStart := stored.start, hqReadEnd := stored.end_, hqRegionScore := stored.score } := by
  unfold resolveHQ
  rw [hsome]

theorem maskSeq_whole (o : Options) (seq : SMRTSequence) :
    maskSeq o seq 0 seq.length = seq := by
  unfold maskSeq
  simp

theorem GetReadTrimCoordinates_of_no_entry (seq : SMRTSequence) (regionTable : RegionTable)
    (hentry : regionTable seq.holeNumber = none) :
    GetReadTrimCoordinates seq regionTable = none := by
  unfold GetReadTrimCoordinates
  rw [hentry]

/-! ## Ranges do not depend on the bases -/

theorem mkSubread_withoutBases (o : Options) (seq : SMRTSequence) (r : Nat × Nat) :
    mkSubread o (withoutBases seq) r = withoutBases (mkSubread o seq r) := by
  simp [mkSubread, withoutBases, subreadTitle]

theorem emitOrRank_withoutBases (o : Options) (hq : HQWindow) (st : LoopState)
    (sub : SMRTSequence) :
    (emitOrRank o hq st sub).withoutBases =
      emitOrRank o hq st.withoutBases (withoutBases sub) := by
  unfold emitOrRank
  have hlen : (withoutBases sub).length = sub.length := rfl
  rw [hlen]
  have hsc : st.withoutBases.bestSubreadScore = st.bestSubreadScore := rfl
  rw [hsc]
  split_ifs <;> simp [LoopState.withoutBases]

theorem loopBody_withoutBases (o : Options) (seq : SMRTSequence) (hq : HQWindow)
    (st : LoopState) (intv : ReadInterval) :
    (loopBody o seq hq st intv).withoutBases =
      loopBody o (withoutBases seq) hq st.withoutBases intv := by
  rw [loopBody_clip, loopBody_clip, mkSubread_withoutBases, ← emitOrRank_withoutBases]
  split_ifs <;> rfl

theorem foldl_loopBody_withoutBases (o : Options) (seq : SMRTSequence) (hq : HQWindow)
    (intervals : List ReadInterval) (st : LoopState) :
    (intervals.foldl (loopBody o seq hq) st).withoutBases =
      intervals.foldl (loopBody o (withoutBases seq) hq) st.withoutBases := by
  induction intervals generalizing st with
  | nil => rfl
  | cons intv rest ih =>
    rw [List.foldl_cons, List.foldl_cons, ih, loopBody_withoutBases]

theorem finish_withoutBases (o : Options) (ccsSeq : SMRTSequence) (st : LoopState) :
    (finish o ccsSeq st).map withoutBases = finish o (withoutBases ccsSeq) st.withoutBases := by
  unfold finish
  have hlen : (withoutBases ccsSeq).length = ccsSeq.length := rfl
  rw [hlen]
  have hsc : st.withoutBases.bestSubreadScore = st.bestSubreadScore := rfl
  rw [hsc]
  split_ifs <;> simp [LoopState.withoutBases]

theorem map_range_withoutBases (l : List SMRTSequence) :
    (l.map withoutBases).map range = l.map range := by
  rw [List.map_map]
  rfl

theorem withoutBases_maskSeq (o : Options) (seq : SMRTSequence) (a b : Nat) :
    withoutBases (maskSeq o seq a b) = withoutBases seq := by
  unfold maskSeq
  dsimp only
  split_ifs <;> rfl

theorem processResolved_map_range (o : Options) (seq ccsSeq : SMRTSequence) (hq : HQWindow)
    (intervals : List ReadInterval) :
    (processResolved o seq ccsSeq hq intervals).map range =
      (finish o (withoutBases ccsSeq)
        (intervals.foldl (loopBody o (withoutBases seq) hq) LoopState.init.withoutBases)).map
        range := by
  unfold processResolved subreadLoop
  rw [← map_range_withoutBases, finish_withoutBases, foldl_loopBody_withoutBases,
    withoutBases_maskSeq]

theorem loopBody_window (o : Options) (seq : SMRTSequence) (hq hq2 : HQWindow)
    (htrim : o.trimByRegion = false) (hscore : hq.hqRegionScore = hq2.hqRegionScore) :
    loopBody o seq hq = loopBody o seq hq2 := by
  funext st intv
  rw [loopBody_clip, loopBody_clip]
  have hclip : clip o hq intv = clip o hq2 intv := by
    simp [clip, htrim]
  have hrank : emitOrRank o hq = emitOrRank o hq2 := by
    funext st2 sub
    unfold emitOrRank
    rw [hscore]
  rw [hclip, hrank, hscore]

theorem processResolved_mask_window (o : Options) (seq ccsSeq : SMRTSequence)
    (hq hq2 : HQWindow) (intervals : List ReadInterval)
    (htrim : o.trimByRegion = false) (hscore : hq.hqRegionScore = hq2.hqRegionScore) :
    (processResolved { o with maskByRegion := true } seq ccsSeq hq intervals).map range =
      (processResolved { o with maskByRegion := false } seq ccsSeq hq2 intervals).map range := by
  rw [processResolved_map_range, processResolved_map_range]
  have h1 : loopBody { o with maskByRegion := true } (withoutBases seq) hq =
      loopBody o (withoutBases seq) hq := rfl
  have h2 : loopBody { o with maskByRegion := false } (withoutBases seq) hq2 =
      loopBody o (withoutBases seq) hq2 := rfl
  rw [h1, h2, loopBody_window o (withoutBases seq) hq hq2 htrim hscore]
  rfl

theorem resolveHQ_score_mask (o : Options) (seq : SMRTSequence) (regionTable : RegionTable)
    (uninitialised : Int) :
    (resolveHQ { o with maskByRegion := true } seq regionTable uninitialised).hqRegionScore =
      (resolveHQ { o with maskByRegion := false } seq regionTable uninitialised).hqRegionScore := by
  unfold resolveHQ
  cases GetReadTrimCoordinates seq regionTable with
  | none => rfl
  | some stored =>
    dsimp only
    split_ifs <;> rfl

theorem processRead_unfold (o : Options) (regionTable : RegionTable) (seq ccsSeq : SMRTSequence)
    (uninitialised : Int) :
    processRead o regionTable seq ccsSeq uninitialised =
      if o.holeNumbers.length != 0 && binary_search o.holeNumbers seq.holeNumber == false
      then []
      else if seq.length == 0 then []
      else if o.printCcs == true then [seq]
      else processResolved o seq ccsSeq (resolveHQ o seq regionTable uninitialised)
        (subreadIntervals o seq regionTable) := by
  unfold processRead processResolved
  simp only [subreadIntervals_maskSeq]

theorem getElem?_fill (a : List Char) (first last : Nat) (value : Char) (i : Nat)
    (hi : i < a.length) :
    (fill a first last value)[i]? = if first ≤ i ∧ i < last then some value else a[i]? := by
  unfold fill
  rw [List.getElem?_mapIdx, List.getElem?_eq_getElem hi]
  split_ifs <;> simp_all

theorem length_fill (a : List Char) (first last : Nat) (value : Char) :
    (fill a first last value).length = a.length := by
  unfold fill
  exact List.length_mapIdx

/-! ## The properties -/

/-- C1. Clip and filter characterisation in normal mode. For a resolved HQ window whose
score is not below `minReadScore` and an `int` value `minSubreadLength >= 0`, the
ranges of the printed subreads are, in order, the clipped candidates that pass the
length filter `start < end` and `end - start > minSubreadLength`. In particular a
clipped interval of length exactly `minSubreadLength` is dropped and one of length
`minSubreadLength + 1` is kept. -/
theorem clip_filter_characterisation (o : Options) (seq ccsSeq : SMRTSequence) (hq : HQWindow)
    (intervals : List ReadInterval)
    (hnormal : o.printOnlyBest = false) (hscore : o.minReadScore ≤ hq.hqRegionScore)
    (hmin : 0 ≤ o.minSubreadLength) (hint : o.minSubreadLength < 2147483648) :
    (processResolved o seq ccsSeq hq intervals).map range =
        (intervals.map (clip o hq)).filter (passesLength o.minSubreadLength) ∧
    (∀ intv : ReadInterval,
        ((clip o hq intv).2 : Int) - ((clip o hq intv).1 : Int) = o.minSubreadLength →
        (processResolved o seq ccsSeq hq [intv]).map range = []) ∧
    (∀ intv : ReadInterval,
        ((clip o hq intv).2 : Int) - ((clip o hq intv).1 : Int) = o.minSubreadLength + 1 →
        (processResolved o seq ccsSeq hq [intv]).map range = [clip o hq intv]) := by
  have key : ∀ l : List ReadInterval, (processResolved o seq ccsSeq hq l).map range =
      (l.map (clip o hq)).filter (passesLength o.minSubreadLength) := by
    intro l
    rw [processResolved_normal o seq ccsSeq hq l hnormal]
    exact survivors_ranges_spec o _ hq l hscore hmin hint
  refine ⟨key intervals, ?_, ?_⟩
  · intro intv hlen
    rw [key]
    have hp : passesLength o.minSubreadLength (clip o hq intv) = false := by
      unfold passesLength
      simp only [Bool.and_eq_false_imp, decide_eq_true_eq, decide_eq_false_iff_not]
      intro _
      omega
    simp [hp]
  · intro intv hlen
    rw [key]
    have hp : passesLength o.minSubreadLength (clip o hq intv) = true := by
      unfold passesLength
      simp only [Bool.and_eq_true, decide_eq_true_eq]
      constructor <;> omega
    simp [hp]

/-- Witness of C1: scenario A, read length 100, HQ (10, 90, 800), candidates (0,30),
(30,60), (60,100): the printed ranges are (10,30), (30,60), (60,90). -/
theorem clip_filter_characterisation_witness :
    (processResolved scenarioA (readOfLength 100) SMRTSequence.empty
        { hqReadStart := 10, hqReadEnd := 90, hqRegionScore := 800 }
        [{ start := 0, end_ := 30 }, { start := 30, end_ := 60 },
          { start := 60, end_ := 100 }]).map range = [(10, 30), (30, 60), (60, 90)] :=
  (clip_filter_characterisation scenarioA (readOfLength 100) SMRTSequence.empty
      { hqReadStart := 10, hqReadEnd := 90, hqRegionScore := 800 }
      [{ start := 0, end_ := 30 }, { start := 30, end_ := 60 }, { start := 60, end_ := 100 }]
      (by decide) (by decide) (by decide) (by decide)).1.trans (by decide)

/-- C2. Coverage. With the candidate intervals of the read's table entry lying inside
the read (the whole-read interval is used when splitting is off), every subread that
is printed for a read, in normal mode or as the best subread, has a range
`start < end <= length`, whether trimming, masking or neither is on; with
`trimByRegion` the range also lies inside the resolved HQ window. -/
theorem accepted_subreads_within_bounds (o : Options) (regionTable : RegionTable)
    (seq ccsSeq : SMRTSequence) (uninitialised : Int)
    (hccs : o.printCcs = false) (hmode : o.printOnlyBest = false ∨ ccsSeq.length = 0)
    (hinside : ∀ annotations, regionTable seq.holeNumber = some annotations →
      ∀ c ∈ annotations.SubreadIntervals seq.length false true, c.end_ ≤ seq.length) :
    ∀ r ∈ processRead o regionTable seq ccsSeq uninitialised,
      0 ≤ r.subreadStart ∧ r.subreadStart < r.subreadEnd ∧ r.subreadEnd ≤ seq.length ∧
      (o.trimByRegion = true →
        (resolveHQ o seq regionTable uninitialised).hqReadStart ≤ r.subreadStart ∧
        r.subreadEnd ≤ (resolveHQ o seq regionTable uninitialised).hqReadEnd) := by
  intro r hr
  rcases processRead_nil_or o regionTable seq ccsSeq uninitialised hccs with h | h
  · rw [h] at hr
    exact absurd hr (List.not_mem_nil r)
  rw [h] at hr
  have hs := mem_processResolved o seq ccsSeq _ _ hmode r hr
  obtain ⟨intv, hmem, hacc, rfl⟩ := (mem_survivors o _ _ _ r).1 hs
  obtain ⟨h1, _⟩ := (accepts_iff o _ intv).1 hacc
  have hend : intv.end_ ≤ seq.length := by
    unfold subreadIntervals at hmem
    split_ifs at hmem with hsplit
    · rw [List.mem_singleton] at hmem
      rw [hmem]
    · cases htab : regionTable seq.holeNumber with
      | none =>
        rw [htab] at hmem
        exact absurd hmem (List.not_mem_nil intv)
      | some annotations =>
        rw [htab] at hmem
        exact hinside annotations htab intv hmem
  generalize resolveHQ o seq regionTable uninitialised = hq at h1 ⊢
  simp only [mkSubread]
  cases htrim : o.trimByRegion
  · simp only [clip, htrim, Bool.false_eq_true, if_false, ge_iff_le, not_or, not_le] at h1 ⊢
    refine ⟨Nat.zero_le _, h1.1, hend, ?_⟩
    intro hcontra
    exact absurd hcontra (by decide)
  · simp only [clip, htrim, if_true, ge_iff_le, not_or, not_le] at h1 ⊢
    refine ⟨Nat.zero_le _, h1.1, ?_, ?_⟩
    · exact le_trans (Nat.min_le_left _ _) hend
    · intro _
      exact ⟨Nat.le_max_right _ _, Nat.min_le_right _ _⟩

/-- Witness of C2 on scenario A: the first printed subread, (10, 30), lies inside the
read of length 100 and inside the HQ window (10, 90). -/
theorem accepted_subreads_within_bounds_witness :
    mkSubread scenarioA (readOfLength 100) (10, 30) ∈
        processRead scenarioA tableA (readOfLength 100) SMRTSequence.empty 0 ∧
    (0 ≤ (mkSubread scenarioA (readOfLength 100) (10, 30)).subreadStart ∧
      (mkSubread scenarioA (readOfLength 100) (10, 30)).subreadStart <
        (mkSubread scenarioA (readOfLength 100) (10, 30)).subreadEnd ∧
      (mkSubread scenarioA (readOfLength 100) (10, 30)).subreadEnd ≤ (readOfLength 100).length ∧
      (scenarioA.trimByRegion = true →
        (resolveHQ scenarioA (readOfLength 100) tableA 0).hqReadStart ≤
          (mkSubread scenarioA (readOfLength 100) (10, 30)).subreadStart ∧
        (mkSubread scenarioA (readOfLength 100) (10, 30)).subreadEnd ≤
          (resolveHQ scenarioA (readOfLength 100) tableA 0).hqReadEnd)) :=
  ⟨by decide,
    accepted_subreads_within_bounds scenarioA tableA (readOfLength 100) SMRTSequence.empty 0
      (by decide) (Or.inl (by decide))
      (by
        intro annotations h c hc
        have h2 : annotations.SubreadIntervals (readOfLength 100).length false true =
            [{ start := 0, end_ := 30 }, { start := 30, end_ := 60 },
              { start := 60, end_ := 100 }] := by
          have h3 : tableA (readOfLength 100).holeNumber =
              some { hqRegion := some { start := 10, end_ := 90, score := 800 },
                     SubreadIntervals := fun _ _ _ =>
                       [{ start := 0, end_ := 30 }, { start := 30, end_ := 60 },
                         { start := 60, end_ := 100 }] } := rfl
          rw [h3] at h
          cases h
          rfl
        rw [h2] at hc
        simp only [List.mem_cons, List.mem_singleton, List.not_mem_nil, or_false] at hc
        rcases hc with rfl | rfl | rfl <;> decide)
      (mkSubread scenarioA (readOfLength 100) (10, 30)) (by decide)⟩

/-- C3. Best-subread selection without a consensus sequence. With `printOnlyBest`, an
empty consensus sequence, an HQ score in 0..1000, at least one surviving subread and
every product `length * hqScore` below `2^31`, exactly one record is printed: the
first survivor, in interval order, whose weighted score `length * hqScore` is the
maximum. Every survivor before it has a strictly smaller weighted score and every
survivor after it has a weighted score that is not greater. -/
theorem best_subread_first_maximum (o : Options) (seq ccsSeq : SMRTSequence) (hq : HQWindow)
    (intervals : List ReadInterval)
    (hbest : o.printOnlyBest = true) (hccs : ccsSeq.length = 0)
    (h0 : 0 ≤ hq.hqRegionScore) (h1 : hq.hqRegionScore ≤ 1000)
    (hne : survivors o (maskSeq o seq hq.hqReadStart hq.hqReadEnd) hq intervals ≠ [])
    (hfit : ∀ r ∈ survivors o (maskSeq o seq hq.hqReadStart hq.hqReadEnd) hq intervals,
      weightedScore hq r < 2147483648) :
    ∃ pre b post,
      survivors o (maskSeq o seq hq.hqReadStart hq.hqReadEnd) hq intervals = pre ++ b :: post ∧
      processResolved o seq ccsSeq hq intervals = [b] ∧
      (∀ x ∈ pre, weightedScore hq x < weightedScore hq b) ∧
      (∀ x ∈ post, weightedScore hq x ≤ weightedScore hq b) := by
  have hloop : subreadLoop o (maskSeq o seq hq.hqReadStart hq.hqReadEnd) hq intervals =
      (survivors o (maskSeq o seq hq.hqReadStart hq.hqReadEnd) hq intervals).foldl
        (emitOrRank o hq) LoopState.init := foldl_loopBody o _ hq intervals LoopState.init
  unfold processResolved
  rw [hloop]
  generalize survivors o (maskSeq o seq hq.hqReadStart hq.hqReadEnd) hq intervals = subs
    at hne hfit ⊢
  have hms : ∀ x ∈ subs, machineScore hq x = weightedScore hq x := fun x hx =>
    machineScore_eq_weightedScore hq x h0 h1 (hfit x hx)
  cases subs with
  | nil => exact absurd rfl hne
  | cons s t =>
    have hs : machineScore hq s = weightedScore hq s := hms s (List.mem_cons_self _ _)
    have hs0 : 0 ≤ machineScore hq s := by rw [hs]; exact weightedScore_nonneg hq s h0
    have hfirst : emitOrRank o hq LoopState.init s =
        { LoopState.init with bestSubread := s, bestSubreadScore := machineScore hq s } := by
      have hgt : subreadWeightedScore s.length hq.hqRegionScore > LoopState.init.bestSubreadScore := by
        have : LoopState.init.bestSubreadScore = -1 := rfl
        rw [this]
        simp only [machineScore] at hs0
        omega
      simp [emitOrRank, hbest, hgt, machineScore]
    rw [List.foldl_cons, hfirst]
    obtain ⟨hout, hsc, pre, post, hsplit, hpre, hpost⟩ := foldl_rank o hq hbest t
      { LoopState.init with bestSubread := s, bestSubreadScore := machineScore hq s } rfl
    simp only at hsplit
    generalize (t.foldl (emitOrRank o hq)
      { LoopState.init with bestSubread := s, bestSubreadScore := machineScore hq s }) = fin
      at hout hsc hsplit hpre hpost ⊢
    have hbmem : fin.bestSubread ∈ s :: t := by
      rw [hsplit]
      exact List.mem_append_right _ (List.mem_cons_self _ _)
    have hpremem : ∀ x ∈ pre, x ∈ s :: t := fun x hx => by
      rw [hsplit]; exact List.mem_append_left _ hx
    have hpostmem : ∀ x ∈ post, x ∈ s :: t := fun x hx => by
      rw [hsplit]; exact List.mem_append_right _ (List.mem_cons_of_mem _ hx)
    refine ⟨pre, fin.bestSubread, post, hsplit, ?_, ?_, ?_⟩
    · have hb0 : fin.bestSubreadScore ≥ 0 := by
        rw [hsc, hms _ hbmem]
        exact weightedScore_nonneg hq _ h0
      have hout2 : fin.out = [] := by rw [hout]; rfl
      simp [finish, hbest, hccs, hb0, hout2]
    · intro x hx
      rw [← hms x (hpremem x hx), ← hms _ hbmem]
      exact hpre x hx
    · intro x hx
      rw [← hms x (hpostmem x hx), ← hms _ hbmem]
      exact hpost x hx

/-- Witness of C3: subreads of lengths 20 and 30 with HQ score 800 have weighted
scores 16000 and 24000, and the subread of length 30 alone is printed. -/
theorem best_subread_first_maximum_witness :
    (∃ pre b post,
      survivors { scenarioA with printOnlyBest := true }
          (maskSeq { scenarioA with printOnlyBest := true } (readOfLength 100) 10 60)
          { hqReadStart := 10, hqReadEnd := 60, hqRegionScore := 800 }
          [{ start := 0, end_ := 30 }, { start := 30, end_ := 100 }] = pre ++ b :: post ∧
      processResolved { scenarioA with printOnlyBest := true } (readOfLength 100)
          SMRTSequence.empty { hqReadStart := 10, hqReadEnd := 60, hqRegionScore := 800 }
          [{ start := 0, end_ := 30 }, { start := 30, end_ := 100 }] = [b] ∧
      (∀ x ∈ pre, weightedScore { hqReadStart := 10, hqReadEnd := 60, hqRegionScore := 800 } x <
        weightedScore { hqReadStart := 10, hqReadEnd := 60, hqRegionScore := 800 } b) ∧
      (∀ x ∈ post, weightedScore { hqReadStart := 10, hqReadEnd := 60, hqRegionScore := 800 } x ≤
        weightedScore { hqReadStart := 10, hqReadEnd := 60, hqRegionScore := 800 } b)) ∧
    (processResolved { scenarioA with printOnlyBest := true } (readOfLength 100)
        SMRTSequence.empty { hqReadStart := 10, hqReadEnd := 60, hqRegionScore := 800 }
        [{ start := 0, end_ := 30 }, { start := 30, end_ := 100 }]).map
      (fun r => (range r, weightedScore
        { hqReadStart := 10, hqReadEnd := 60, hqRegionScore := 800 } r)) = [((30, 60), 24000)] :=
  ⟨best_subread_first_maximum { scenarioA with printOnlyBest := true } (readOfLength 100)
      SMRTSequence.empty { hqReadStart := 10, hqReadEnd := 60, hqRegionScore := 800 }
      [{ start := 0, end_ := 30 }, { start := 30, end_ := 100 }]
      rfl rfl (by decide) (by decide) (by decide) (by decide),
    by decide⟩

/-- C4. Consensus precedence. For a read that is processed (non-zero length, passing
the hole-number filter, `printCcs` off) with `printOnlyBest` set and a consensus
sequence of positive length, the output is exactly one record, the consensus sequence
unchanged, whatever the region table, the filters and the surviving subreads are. -/
theorem ccs_precedence (o : Options) (regionTable : RegionTable) (seq ccsSeq : SMRTSequence)
    (uninitialised : Int)
    (hhole : o.holeNumbers = [] ∨ seq.holeNumber ∈ o.holeNumbers)
    (hlen : seq.length ≠ 0) (hccs : o.printCcs = false)
    (hbest : o.printOnlyBest = true) (hcons : 0 < ccsSeq.length) :
    processRead o regionTable seq ccsSeq uninitialised = [ccsSeq] := by
  rw [processRead_eq o regionTable seq ccsSeq uninitialised hhole hlen hccs]
  unfold processResolved finish
  rw [subreadLoop_best_out o _ _ _ hbest]
  simp [hbest, hcons]

/-- Witness of C4: scenario A in best-only mode with a consensus sequence of four
bases prints that sequence and nothing else. -/
theorem ccs_precedence_witness :
    processRead { scenarioA with printOnlyBest := true } tableA (readOfLength 100)
        { title := "m/7/ccs", seq := ['A', 'C', 'G', 'T'], length := 4, holeNumber := 7,
          subreadStart := 0, subreadEnd := 0 } 0 =
      [{ title := "m/7/ccs", seq := ['A', 'C', 'G', 'T'], length := 4, holeNumber := 7,
         subreadStart := 0, subreadEnd := 0 }] :=
  ccs_precedence { scenarioA with printOnlyBest := true } tableA (readOfLength 100)
    { title := "m/7/ccs", seq := ['A', 'C', 'G', 'T'], length := 4, holeNumber := 7,
      subreadStart := 0, subreadEnd := 0 } 0
    (Or.inl rfl) (by decide) rfl rfl (by decide)

/-- C5. The minimum read score gates the whole read. When the resolved HQ score is
below `minReadScore` no subread survives, nothing is printed in normal mode and no
best subread is printed in best-only mode. When the resolved HQ score is not below
`minReadScore` the score filter drops nothing: the output is the one obtained with
any other threshold that the score meets. -/
theorem min_read_score_gates_read (o : Options) (regionTable : RegionTable)
    (seq ccsSeq : SMRTSequence) (uninitialised : Int) (hccs : o.printCcs = false) :
    ((resolveHQ o seq regionTable uninitialised).hqRegionScore < o.minReadScore →
      survivors o
          (maskSeq o seq (resolveHQ o seq regionTable uninitialised).hqReadStart
            (resolveHQ o seq regionTable uninitialised).hqReadEnd)
          (resolveHQ o seq regionTable uninitialised) (subreadIntervals o seq regionTable) = [] ∧
      ((o.printOnlyBest = false ∨ ccsSeq.length = 0) →
        processRead o regionTable seq ccsSeq uninitialised = [])) ∧
    (o.minReadScore ≤ (resolveHQ o seq regionTable uninitialised).hqRegionScore →
      ∀ m : Int, m ≤ (resolveHQ o seq regionTable uninitialised).hqRegionScore →
        processRead { o with minReadScore := m } regionTable seq ccsSeq uninitialised =
          processRead o regionTable seq ccsSeq uninitialised) := by
  constructor
  · intro hlow
    have hnil := survivors_nil_of_low_score o
      (maskSeq o seq (resolveHQ o seq regionTable uninitialised).hqReadStart
        (resolveHQ o seq regionTable uninitialised).hqReadEnd)
      (resolveHQ o seq regionTable uninitialised) (subreadIntervals o seq regionTable) hlow
    refine ⟨hnil, ?_⟩
    intro hmode
    rcases processRead_nil_or o regionTable seq ccsSeq uninitialised hccs with h | h
    · exact h
    · rw [h]
      unfold processResolved
      rw [subreadLoop_of_survivors_nil o _ _ _ hnil]
      rcases hmode with hm | hm
      · simp [finish, hm, LoopState.init]
      · simp [finish, hm, LoopState.init]
  · intro hok m hm
    have hbody := loopBody_minReadScore o m
      (maskSeq o seq (resolveHQ o seq regionTable uninitialised).hqReadStart
        (resolveHQ o seq regionTable uninitialised).hqReadEnd)
      (resolveHQ o seq regionTable uninitialised) hok hm
    have hunfold : processRead { o with minReadScore := m } regionTable seq ccsSeq uninitialised =
        if o.holeNumbers.length != 0 && binary_search o.holeNumbers seq.holeNumber == false
        then []
        else if seq.length == 0 then []
        else if o.printCcs == true then [seq]
        else finish o ccsSeq
          ((subreadIntervals o
              (maskSeq o seq (resolveHQ o seq regionTable uninitialised).hqReadStart
                (resolveHQ o seq regionTable uninitialised).hqReadEnd) regionTable).foldl
            (loopBody { o with minReadScore := m }
              (maskSeq o seq (resolveHQ o seq regionTable uninitialised).hqReadStart
                (resolveHQ o seq regionTable uninitialised).hqReadEnd)
              (resolveHQ o seq regionTable uninitialised)) LoopState.init) := rfl
    rw [hunfold, hbody]
    rfl

/-- Witness of C5: scenario B, which is scenario A with `minReadScore = 900` against
an HQ score of 800, prints no record. -/
theorem min_read_score_gates_read_witness :
    processRead { scenarioA with minReadScore := 900 } tableA (readOfLength 100)
      SMRTSequence.empty 0 = [] :=
  ((min_read_score_gates_read { scenarioA with minReadScore := 900 } tableA (readOfLength 100)
      SMRTSequence.empty 0 rfl).1 (by decide)).2 (Or.inl rfl)

/-- C6, as stated, fails. With trimming and masking both off, splitting on and
`minReadScore = 500`, a read whose table entry stores the HQ score 800 is resolved to
the score 800, not 0, and its three subreads are printed, not discarded. -/
theorem fallback_score_counterexample :
    (splitOnly.trimByRegion = false ∧ splitOnly.maskByRegion = false ∧
      0 < splitOnly.minReadScore) ∧
    (resolveHQ splitOnly (readOfLength 100) (loadRegionTable splitOnly tableA) 0).hqRegionScore
      ≠ 0 ∧
    processRead splitOnly (loadRegionTable splitOnly tableA) (readOfLength 100)
      SMRTSequence.empty 0 ≠ [] ∧
    (processRead splitOnly (loadRegionTable splitOnly tableA) (readOfLength 100)
      SMRTSequence.empty 0).map range = [(0, 30), (30, 60), (60, 100)] := by
  decide

/-- C6, amended. When the lookup finds no HQ region, or trimming and masking are both
off, the window used downstream is `(0, length)`. When the lookup finds an HQ region
the score used downstream is the stored score, also with both modes off. Hence, with
both modes off and a stored score, a processed read in normal mode prints nothing
when the stored score is below `minReadScore`, and when it is not below it the score
filter drops nothing: the printed ranges are the candidates that pass the length
filter. -/
theorem fallback_window_and_stored_score (o : Options) (regionTable : RegionTable)
    (seq ccsSeq : SMRTSequence) (uninitialised : Int) :
    ((GetReadTrimCoordinates seq regionTable = none ∨
        (o.trimByRegion = false ∧ o.maskByRegion = false)) →
      (resolveHQ o seq regionTable uninitialised).hqReadStart = 0 ∧
      (resolveHQ o seq regionTable uninitialised).hqReadEnd = seq.length) ∧
    (∀ stored : HQRegion, GetReadTrimCoordinates seq regionTable = some stored →
      (resolveHQ o seq regionTable uninitialised).hqRegionScore = stored.score) ∧
    (∀ stored : HQRegion, GetReadTrimCoordinates seq regionTable = some stored →
      o.trimByRegion = false → o.maskByRegion = false →
      o.printCcs = false → o.printOnlyBest = false →
      (stored.score < o.minReadScore →
        processRead o regionTable seq ccsSeq uninitialised = []) ∧
      (o.minReadScore ≤ stored.score →
        (o.holeNumbers = [] ∨ seq.holeNumber ∈ o.holeNumbers) → seq.length ≠ 0 →
        0 ≤ o.minSubreadLength → o.minSubreadLength < 2147483648 →
        (processRead o regionTable seq ccsSeq uninitialised).map range =
          ((subreadIntervals o seq regionTable).map fun c => (c.start, c.end_)).filter
            (passesLength o.minSubreadLength))) := by
  have hscoreEq : ∀ stored : HQRegion, GetReadTrimCoordinates seq regionTable = some stored →
      (resolveHQ o seq regionTable uninitialised).hqRegionScore = stored.score := by
    intro stored hsome
    rw [resolveHQ_of_some o seq regionTable uninitialised stored hsome]
    split_ifs <;> rfl
  refine ⟨?_, hscoreEq, ?_⟩
  · intro h
    cases hlook : GetReadTrimCoordinates seq regionTable with
    | none =>
      rw [resolveHQ_of_none o seq regionTable uninitialised hlook]
      exact ⟨rfl, rfl⟩
    | some stored =>
      rcases h with h | ⟨ht, hm⟩
      · rw [hlook] at h
        exact absurd h (by simp)
      · rw [resolveHQ_of_some o seq regionTable uninitialised stored hlook]
        simp [ht, hm]
  · intro stored hsome htrim hmask hccs hnormal
    have hsc := hscoreEq stored hsome
    constructor
    · intro hlow
      rcases processRead_nil_or o regionTable seq ccsSeq uninitialised hccs with h | h
      · exact h
      · rw [h, processResolved_of_survivors_nil o seq ccsSeq _ _
          (survivors_nil_of_low_score o _ _ _ (by rw [hsc]; exact hlow))]
        simp [hnormal]
    · intro hok hhole hlen hmin hint
      rw [processRead_eq o regionTable seq ccsSeq uninitialised hhole hlen hccs,
        processResolved_normal o seq ccsSeq _ _ hnormal,
        survivors_ranges_spec o _ _ _ (by rw [hsc]; exact hok) hmin hint]
      congr 1
      apply List.map_congr_left
      intro c _
      simp [clip, htrim]

/-- Witness of the amended C6 on the read of the counterexample: the window is the
whole read and the score is the stored 800. -/
theorem fallback_window_and_stored_score_witness :
    (resolveHQ splitOnly (readOfLength 100) tableA 0).hqReadStart = 0 ∧
    (resolveHQ splitOnly (readOfLength 100) tableA 0).hqReadEnd = 100 ∧
    (resolveHQ splitOnly (readOfLength 100) tableA 0).hqRegionScore = 800 ∧
    (processRead { splitOnly with minReadScore := 900 } tableA (readOfLength 100)
      SMRTSequence.empty 0) = [] :=
  ⟨((fallback_window_and_stored_score splitOnly tableA (readOfLength 100)
        SMRTSequence.empty 0).1 (Or.inr ⟨rfl, rfl⟩)).1,
    ((fallback_window_and_stored_score splitOnly tableA (readOfLength 100)
        SMRTSequence.empty 0).1 (Or.inr ⟨rfl, rfl⟩)).2,
    (fallback_window_and_stored_score splitOnly tableA (readOfLength 100)
        SMRTSequence.empty 0).2.1 { start := 10, end_ := 90, score := 800 } rfl,
    ((fallback_window_and_stored_score { splitOnly with minReadScore := 900 } tableA
        (readOfLength 100) SMRTSequence.empty 0).2.2 { start := 10, end_ := 90, score := 800 }
        rfl rfl rfl rfl rfl).1 (by decide)⟩

/-- C7 at its failing input. With `-best`, no consensus sequence and an HQ score of 0,
the subreads (0, 20) and (20, 50) both survive, every weighted score is 0, and the
subread printed is (0, 20), of length 20, although (20, 50) has length 30. -/
theorem best_prints_first_subread_at_score_zero :
    (survivors bestOnly (readOfLength 50)
        (resolveHQ bestOnly (readOfLength 50) (loadRegionTable bestOnly tableScoreZero) 0)
        (subreadIntervals bestOnly (readOfLength 50)
          (loadRegionTable bestOnly tableScoreZero))).map
      (fun r => (range r, r.length)) = [((0, 20), 20), ((20, 50), 30)] ∧
    (processRead bestOnly (loadRegionTable bestOnly tableScoreZero) (readOfLength 50)
        SMRTSequence.empty 0).map
      (fun r => (range r, r.length)) = [((0, 20), 20)] := by
  decide

/-- C9, as stated, fails. A read of length 10 with no region-table entry, no splitting
and `minSubreadLength = 10` yields no subread at all: the whole-read interval has
length 10, which is not greater than the minimum. -/
theorem whole_read_fallback_counterexample :
    (loadRegionTable wholeReadOnly tableA) (readOfLength 10).holeNumber = none ∧
    wholeReadOnly.splitSubreads = false ∧ 0 < (readOfLength 10).length ∧
    processRead wholeReadOnly (loadRegionTable wholeReadOnly tableA) (readOfLength 10)
      SMRTSequence.empty 0 = [] :=
  ⟨rfl, rfl, by decide, by decide⟩

/-- C9, amended. For a processed read of length `L > 0` with no region-table entry and
splitting off, with `0 <= minSubreadLength < L` and the value held in `hqRegionScore`
not below `minReadScore`, exactly one subread is printed in normal mode, and also in
best-only mode when there is no consensus sequence and the weighted score is not
negative. Its range is `(0, L)`, it holds the first `L` bases of the read, and its
title is the title of the read without a coordinate suffix. -/
theorem whole_read_fallback (o : Options) (regionTable : RegionTable)
    (seq ccsSeq : SMRTSequence) (uninitialised : Int)
    (hentry : regionTable seq.holeNumber = none) (hsplit : o.splitSubreads = false)
    (hhole : o.holeNumbers = [] ∨ seq.holeNumber ∈ o.holeNumbers)
    (hlen : 0 < seq.length) (hccs : o.printCcs = false)
    (hmin : 0 ≤ o.minSubreadLength) (hshort : o.minSubreadLength < (seq.length : Int))
    (hint : o.minSubreadLength < 2147483648)
    (hscore : o.minReadScore ≤ uninitialised)
    (hmode : o.printOnlyBest = false ∨
      (ccsSeq.length = 0 ∧ 0 ≤ subreadWeightedScore seq.length uninitialised)) :
    ∃ r, processRead o regionTable seq ccsSeq uninitialised = [r] ∧
      r.subreadStart = 0 ∧ r.subreadEnd = seq.length ∧ r.length = seq.length ∧
      r.seq = seq.seq.take seq.length ∧ r.title = seq.title := by
  have hnone := GetReadTrimCoordinates_of_no_entry seq regionTable hentry
  have hivs : subreadIntervals o seq regionTable = [{ start := 0, end_ := seq.length }] := by
    simp [subreadIntervals, hsplit]
  have hclip : clip o (⟨0, seq.length, uninitialised⟩ : HQWindow)
      (⟨0, seq.length⟩ : ReadInterval) = (0, seq.length) := by
    unfold clip
    split_ifs <;> simp
  have hacc : accepts o (⟨0, seq.length, uninitialised⟩ : HQWindow)
      (⟨0, seq.length⟩ : ReadInterval) = true := by
    rw [accepts_iff, hclip, toDNALength_of_nonneg _ hmin (by omega)]
    refine ⟨?_, ?_⟩
    · show ¬ (0 ≥ seq.length ∨ seq.length - 0 ≤ o.minSubreadLength.toNat)
      omega
    · show ¬ uninitialised < o.minReadScore
      omega
  refine ⟨mkSubread o seq (0, seq.length), ?_, rfl, rfl, rfl, ?_, ?_⟩
  · rw [processRead_eq o regionTable seq ccsSeq uninitialised hhole (by omega) hccs,
      resolveHQ_of_none o seq regionTable uninitialised hnone, hivs]
    unfold processResolved subreadLoop
    rw [maskSeq_whole, List.foldl_cons, List.foldl_nil, loopBody_eq, if_pos hacc, hclip]
    rcases hmode with hm | ⟨hc, hw⟩
    · have hpos : 0 < (mkSubread o seq (0, seq.length)).length := by
        show 0 < seq.length - 0
        omega
      simp [emitOrRank, finish, hm, hpos, LoopState.init]
    · cases hbest : o.printOnlyBest
      · have hpos : 0 < (mkSubread o seq (0, seq.length)).length := by
          show 0 < seq.length - 0
          omega
        simp [emitOrRank, finish, hbest, hpos, LoopState.init]
      · have hw3 : 0 ≤ subreadWeightedScore (mkSubread o seq (0, seq.length)).length
            uninitialised := by
          show 0 ≤ subreadWeightedScore (seq.length - 0) uninitialised
          rw [Nat.sub_zero]
          exact hw
        have hw2 : -1 < subreadWeightedScore (mkSubread o seq (0, seq.length)).length
            uninitialised := by
          omega
        simp [emitOrRank, finish, hbest, hc, hw2, hw3, LoopState.init]
  · show (seq.seq.drop 0).take (seq.length - 0) = seq.seq.take seq.length
    simp
  · show subreadTitle o seq 0 seq.length = seq.title
    simp [subreadTitle, hsplit]

/-- Witness of the amended C9: a read of length 100 without a table entry, with
`minSubreadLength = 10` and no splitting, is printed whole under its own title. -/
theorem whole_read_fallback_witness :
    ∃ r, processRead wholeReadOnly RegionTable.empty (readOfLength 100) SMRTSequence.empty 0
        = [r] ∧
      r.subreadStart = 0 ∧ r.subreadEnd = (readOfLength 100).length ∧
      r.length = (readOfLength 100).length ∧
      r.seq = (readOfLength 100).seq.take (readOfLength 100).length ∧
      r.title = (readOfLength 100).title :=
  whole_read_fallback wholeReadOnly RegionTable.empty (readOfLength 100) SMRTSequence.empty 0
    rfl rfl (Or.inl rfl) (by decide) rfl (by decide) (by decide) (by decide) (by decide)
    (Or.inl rfl)

/-- C10. No entry with splitting. For a read whose hole number has no region-table
entry, with `splitSubreads` on (and `printCcs` off), the list of candidate intervals
is empty, no subread survives, nothing is printed in normal mode or in best-only mode
without a consensus sequence, and the only record that can be printed at all is the
consensus sequence; this holds for every `minSubreadLength`, `minReadScore`,
`trimByRegion` and `maskByRegion`. -/
theorem no_entry_split_yields_nothing (o : Options) (regionTable : RegionTable)
    (seq ccsSeq : SMRTSequence) (uninitialised : Int)
    (hentry : regionTable seq.holeNumber = none) (hsplit : o.splitSubreads = true)
    (hccs : o.printCcs = false) :
    subreadIntervals o seq regionTable = [] ∧
    ((o.printOnlyBest = false ∨ ccsSeq.length = 0) →
      processRead o regionTable seq ccsSeq uninitialised = []) ∧
    (∀ r ∈ processRead o regionTable seq ccsSeq uninitialised,
      r = ccsSeq ∧ o.printOnlyBest = true ∧ 0 < ccsSeq.length) := by
  have hivs : subreadIntervals o seq regionTable = [] := by
    simp [subreadIntervals, hsplit, hentry]
  have hres : processResolved o seq ccsSeq (resolveHQ o seq regionTable uninitialised)
      (subreadIntervals o seq regionTable) =
        if o.printOnlyBest = true ∧ 0 < ccsSeq.length then [ccsSeq] else [] := by
    apply processResolved_of_survivors_nil
    rw [hivs]
    rfl
  refine ⟨hivs, ?_, ?_⟩
  · intro hmode
    rcases processRead_nil_or o regionTable seq ccsSeq uninitialised hccs with h | h
    · exact h
    · rw [h, hres]
      rcases hmode with hm | hm
      · simp [hm]
      · simp [hm]
  · intro r hr
    rcases processRead_nil_or o regionTable seq ccsSeq uninitialised hccs with h | h
    · rw [h] at hr
      exact absurd hr (List.not_mem_nil r)
    · rw [h, hres] at hr
      split_ifs at hr with hc
      · rw [List.mem_singleton] at hr
        exact ⟨hr, hc.1, hc.2⟩
      · exact absurd hr (List.not_mem_nil r)

/-- Witness of C10: scenario A on a read in hole 7 against a table without entries
gives no candidate interval and no output. -/
theorem no_entry_split_yields_nothing_witness :
    subreadIntervals scenarioA (readOfLength 100) RegionTable.empty = [] ∧
    processRead scenarioA RegionTable.empty (readOfLength 100) SMRTSequence.empty 0 = [] :=
  ⟨(no_entry_split_yields_nothing scenarioA RegionTable.empty (readOfLength 100)
      SMRTSequence.empty 0 rfl rfl rfl).1,
    (no_entry_split_yields_nothing scenarioA RegionTable.empty (readOfLength 100)
      SMRTSequence.empty 0 rfl rfl rfl).2.1 (Or.inl rfl)⟩

/-- C8. Masking changes content only. (1) For a read whose base array has `L` bases
and a window `hqStart <= hqEnd <= L`, the masked base array still has `L` bases, every
position inside `[hqStart, hqEnd)` holds its original base and every other position
holds `N`. (2) With `trimByRegion` off, the list of printed ranges with masking on is
the list with masking off, both for a given resolved window and list of candidate
intervals and for the whole per-read body on a given region table. -/
theorem masking_changes_content_only (o : Options) (seq ccsSeq : SMRTSequence) (hq : HQWindow)
    (htrim : o.trimByRegion = false) (hseq : seq.seq.length = seq.length)
    (_hwin : hq.hqReadStart ≤ hq.hqReadEnd ∧ hq.hqReadEnd ≤ seq.length) :
    ((maskSeq { o with maskByRegion := true } seq hq.hqReadStart hq.hqReadEnd).seq.length
        = seq.length ∧
      (maskSeq { o with maskByRegion := true } seq hq.hqReadStart hq.hqReadEnd).length
        = seq.length ∧
      ∀ i, i < seq.length →
        (maskSeq { o with maskByRegion := true } seq hq.hqReadStart hq.hqReadEnd).seq[i]? =
          if hq.hqReadStart ≤ i ∧ i < hq.hqReadEnd then seq.seq[i]? else some 'N') ∧
    (∀ intervals : List ReadInterval,
      (processResolved { o with maskByRegion := true } seq ccsSeq hq intervals).map range =
        (processResolved { o with maskByRegion := false } seq ccsSeq hq intervals).map range) ∧
    (∀ (regionTable : RegionTable) (uninitialised : Int),
      (processRead { o with maskByRegion := true } regionTable seq ccsSeq uninitialised).map range
        = (processRead { o with maskByRegion := false } regionTable seq ccsSeq
            uninitialised).map range) := by
  refine ⟨⟨?_, ?_, ?_⟩, ?_, ?_⟩
  · unfold maskSeq
    dsimp only
    split_ifs <;> simp [length_fill, hseq]
  · exact maskSeq_length _ seq _ _
  · intro i hi
    have hi2 : i < seq.seq.length := by omega
    unfold maskSeq
    dsimp only
    rw [if_pos rfl]
    by_cases hs : hq.hqReadStart > 0
    · rw [if_pos hs]
      by_cases he : (hq.hqReadEnd != seq.length) = true
      · rw [if_pos he]
        dsimp only
        rw [getElem?_fill _ _ _ _ _ (by rw [length_fill]; exact hi2),
          getElem?_fill _ _ _ _ _ hi2]
        split_ifs <;> first | rfl | omega
      · rw [if_neg he]
        dsimp only
        have he2 : hq.hqReadEnd = seq.length := by simpa using he
        rw [getElem?_fill _ _ _ _ _ hi2]
        split_ifs <;> first | rfl | omega
    · rw [if_neg hs]
      by_cases he : (hq.hqReadEnd != seq.length) = true
      · rw [if_pos he]
        dsimp only
        rw [getElem?_fill _ _ _ _ _ hi2]
        split_ifs <;> first | rfl | omega
      · rw [if_neg he]
        have he2 : hq.hqReadEnd = seq.length := by simpa using he
        rw [if_pos (by omega)]
  · intro intervals
    exact processResolved_mask_window o seq ccsSeq hq hq intervals htrim rfl
  · intro regionTable uninitialised
    rw [processRead_unfold, processRead_unfold]
    have hres := processResolved_mask_window o seq ccsSeq
      (resolveHQ { o with maskByRegion := true } seq regionTable uninitialised)
      (resolveHQ { o with maskByRegion := false } seq regionTable uninitialised)
      (subreadIntervals o seq regionTable) htrim
      (resolveHQ_score_mask o seq regionTable uninitialised)
    have hcond : ({ o with maskByRegion := true } : Options).holeNumbers = o.holeNumbers := rfl
    dsimp only
    split_ifs
    · rfl
    · rfl
    · rfl
    · exact hres

/-- Witness of C8: masking a read of 20 bases with the window (5, 15) leaves 20 bases,
`N` outside the window, and the printed ranges of scenario A without trimming are the
same with and without masking. -/
theorem masking_changes_content_only_witness :
    (((maskSeq { { scenarioA with trimByRegion := false } with maskByRegion := true }
          (readOfLength 20) 5 15).seq.length = (readOfLength 20).length ∧
      (maskSeq { { scenarioA with trimByRegion := false } with maskByRegion := true }
          (readOfLength 20) 5 15).length = (readOfLength 20).length ∧
      ∀ i, i < (readOfLength 20).length →
        (maskSeq { { scenarioA with trimByRegion := false } with maskByRegion := true }
            (readOfLength 20) 5 15).seq[i]? =
          if 5 ≤ i ∧ i < 15 then (readOfLength 20).seq[i]? else some 'N') ∧
    (∀ intervals : List ReadInterval,
      (processResolved { { scenarioA with trimByRegion := false } with maskByRegion := true }
          (readOfLength 20) SMRTSequence.empty
          { hqReadStart := 5, hqReadEnd := 15, hqRegionScore := 800 } intervals).map range =
        (processResolved { { scenarioA with trimByRegion := false } with maskByRegion := false }
          (readOfLength 20) SMRTSequence.empty
          { hqReadStart := 5, hqReadEnd := 15, hqRegionScore := 800 } intervals).map range) ∧
    (∀ (regionTable : RegionTable) (uninitialised : Int),
      (processRead { { scenarioA with trimByRegion := false } with maskByRegion := true }
          regionTable (readOfLength 20) SMRTSequence.empty uninitialised).map range
        = (processRead { { scenarioA with trimByRegion := false } with maskByRegion := false }
            regionTable (readOfLength 20) SMRTSequence.empty uninitialised).map range)) ∧
    (maskSeq { { scenarioA with trimByRegion := false } with maskByRegion := true }
        (readOfLength 20) 5 15).seq =
      ['N', 'N', 'N', 'N', 'N', 'A', 'A', 'A', 'A', 'A', 'A', 'A', 'A', 'A', 'A',
        'N', 'N', 'N', 'N', 'N'] :=
  ⟨masking_changes_content_only { scenarioA with trimByRegion := false } (readOfLength 20)
      SMRTSequence.empty { hqReadStart := 5, hqReadEnd := 15, hqRegionScore := 800 }
      rfl (by decide) (by decide),
    by decide⟩

end PulseToFasta
